import Mathlib

/-!
A shallow embedding of the Rustkov Markov-chain brain (`src/brain.rs`,
`src/brain_components.rs`, `src/config.rs`, `src/enums.rs`) in Lean 4,
together with theorems settling the specification claims.

Modelling conventions:
* The Rust `HashMap<State, Transistion>` is modelled as an association list
  `List (State × Transistion)`; `entry().or_insert` updates the matching
  entry in place or appends a fresh one.
* The ChaCha8 PRNG is modelled abstractly as an infinite stream of natural
  draws (`Rng`): each primitive random operation consumes draws from the
  stream.  `gen_bool p` (rand's Bernoulli) consumes one draw unless `p ≥ 1`
  (rand special-cases `p = 1.0` to always-true without sampling); slice
  `choose` on a non-empty slice and `choose_weighted` each consume one draw.
* Rust `f64` probabilities are modelled as rationals (`ℚ`), defined on the
  configuration's documented domain `0 ≤ p ≤ 1`.
* Rust panics (`unwrap` on `None`/`Err`) and non-termination of the
  boundary-seeking loops are modelled by an `Option` layer: `none` is an
  abnormal outcome (panic or exhausted fuel), `some none` is `Ok(None)`,
  `some (some s)` is `Ok(Some s)`.
* `char::to_lowercase` is modelled on its ASCII fragment via `Char.toLower`.
-/

namespace Rustkov

/-- `enums.rs`: direction of a sentence walk. -/
inductive SentenceDirection where
  | Backward
  | Forward
deriving DecidableEq, Repr

/-- `enums.rs`: sentence markers. -/
inductive SentenceMarker where
  | Placeholder
  | Start
  | End
deriving DecidableEq, Repr

/-- `enums.rs`: an element of a state: a marker or a word. -/
inductive StateElement where
  | Marker (m : SentenceMarker)
  | Word (w : String)
deriving DecidableEq, Repr

/-- `brain_components.rs`: `State(Vec<StateElement>)`, the key of the map. -/
abbrev State := List StateElement

/-- `brain_components.rs`: weighted neighbor lists of a state. -/
structure Transistion where
  prev : List (StateElement × Nat)
  next : List (StateElement × Nat)
deriving DecidableEq, Repr

/-- The brain's transition store, `HashMap<State, Transistion>` as an
association list. -/
abbrev Store := List (State × Transistion)

/-- `config.rs`: the brain configuration (`reply_rate: f64` modelled as `ℚ`). -/
structure BrainConfig where
  max_ingestion_state_size : Nat
  training : Bool
  mute : Bool
  reply_rate : ℚ
  min_generation_state_size : Nat
  max_generation_state_size : Nat
  excluded_words : List String
deriving Repr

/-- `config.rs`: `BrainConfig::get_state_range`, the half-open range
`min_generation_state_size..max_generation_state_size` as the ascending list
of sizes it iterates. -/
def BrainConfig.get_state_range (cfg : BrainConfig) : List Nat :=
  List.range' cfg.min_generation_state_size
    (cfg.max_generation_state_size - cfg.min_generation_state_size)

/-- `brain_components.rs`: `Transistion::increment_occurence` body on one
weighted list: bump every entry whose element matches, else push `(e, 1)`. -/
def incrementList (l : List (StateElement × Nat)) (e : StateElement) :
    List (StateElement × Nat) :=
  if l.any (fun p => p.1 = e) then
    l.map (fun p => if p.1 = e then (p.1, p.2 + 1) else p)
  else
    l ++ [(e, 1)]

/-- `brain_components.rs`: `Transistion::increment_occurence`: silently
ignore a `Placeholder` neighbor, otherwise update the directed list. -/
def Transistion.increment_occurence (t : Transistion)
    (direction : SentenceDirection) (new_element : StateElement) : Transistion :=
  if new_element = StateElement.Marker SentenceMarker.Placeholder then t
  else
    match direction with
    | SentenceDirection.Backward => { t with prev := incrementList t.prev new_element }
    | SentenceDirection.Forward => { t with next := incrementList t.next new_element }

/-- `HashMap::get` on the association-list store. -/
def lookupT (σ : Store) (s : State) : Option Transistion :=
  match σ.find? (fun p => p.1 = s) with
  | some p => some p.2
  | none => none

/-- Whether a state is a key of the store. -/
def keyMem (σ : Store) (s : State) : Bool :=
  σ.any (fun p => p.1 = s)

/-- `HashMap::entry(s).or_insert(empty)` followed by applying `f` to the
entry's transition. -/
def storeUpdate (σ : Store) (s : State) (f : Transistion → Transistion) : Store :=
  if σ.any (fun p => p.1 = s) then
    σ.map (fun p => if p.1 = s then (p.1, f p.2) else p)
  else
    σ ++ [(s, f { prev := [], next := [] })]

/-- `config.rs`: `SPLIT_CHARS = [' ', '\n']`. -/
def isSplitChar (c : Char) : Bool :=
  c = ' ' ∨ c = '\n'

/-- Rust `str::split(&SPLIT_CHARS)` on a character list: split at every
space or newline, keeping empty pieces (as Rust's `split` does). -/
def splitChars : List Char → List (List Char)
  | [] => [[]]
  | c :: rest =>
    let r := splitChars rest
    if isSplitChar c then [] :: r
    else
      match r with
      | [] => [[c]]
      | p :: ps => (c :: p) :: ps

/-- `brain.rs` `ingest`, tokenization part: lower-case the line, split on
`SPLIT_CHARS`, keep non-empty tokens as `Word`s, and wrap the result as
`[Placeholder, Start, words…, End, Placeholder]`. -/
def tokenize (line : String) : List StateElement :=
  let split : List StateElement :=
    (splitChars (line.data.map Char.toLower)).filterMap
      (fun cs => if String.mk cs ≠ "" then some (StateElement.Word (String.mk cs)) else none)
  [StateElement.Marker SentenceMarker.Placeholder,
   StateElement.Marker SentenceMarker.Start] ++ split ++
  [StateElement.Marker SentenceMarker.End,
   StateElement.Marker SentenceMarker.Placeholder]

/-- Rust `slice::windows(n)`: all contiguous sub-slices of length `n`
(empty when the slice is shorter than `n`; only used with `n ≥ 3`). -/
def windows (n : Nat) : List StateElement → List (List StateElement)
  | [] => []
  | a :: rest =>
    if rest.length + 1 < n then []
    else ((a :: rest).take n) :: windows n rest

/-- `brain.rs` `ingest`, body of the per-window closure: the window's first
element is the backward neighbor, its last the forward neighbor, and the
middle `state_size` elements form the state key. -/
def applyWindow (state_size : Nat) (σ : Store) (window : List StateElement) : Store :=
  let prev_element := window.headD (StateElement.Marker SentenceMarker.Placeholder)
  let next_element := window.getLastD (StateElement.Marker SentenceMarker.Placeholder)
  let constructed_state : State := (window.drop 1).take state_size
  storeUpdate σ constructed_state
    (fun t => (t.increment_occurence SentenceDirection.Backward prev_element).increment_occurence
      SentenceDirection.Forward next_element)

/-- `brain.rs` `ingest`, the nested loop over state sizes `1..=max` and
windows of width `state_size + 2`, on an already-tokenized element list. -/
def ingestElements (max_size : Nat) (σ : Store) (elements : List StateElement) : Store :=
  (List.range max_size).foldl
    (fun st k =>
      let state_size := k + 1
      if elements.length ≤ state_size then st
      else (windows (state_size + 2) elements).foldl (applyWindow state_size) st)
    σ

/-- `brain.rs`: `Brain::ingest`. -/
def ingest (max_size : Nat) (σ : Store) (line : String) : Store :=
  ingestElements max_size σ (tokenize line)

/-- Stores reachable from the empty store by any sequence of `ingest` calls
(with any configured maximum state size). -/
inductive Reachable : Store → Prop where
  | empty : Reachable []
  | step (n : Nat) (line : String) {σ : Store} :
      Reachable σ → Reachable (ingest n σ line)

/-- The ChaCha8 PRNG modelled abstractly: an infinite stream of natural
draws together with a cursor.  Cloning the structure models
`ChaCha8Rng::clone` (same stream, same position, independently advanced). -/
structure Rng where
  stream : Nat → Nat
  pos : Nat

/-- Consume one draw from the stream. -/
def Rng.next (r : Rng) : Nat × Rng :=
  (r.stream r.pos, { stream := r.stream, pos := r.pos + 1 })

/-- Advance the cursor by `n` draws. -/
def Rng.advance (r : Rng) (n : Nat) : Rng :=
  { stream := r.stream, pos := r.pos + n }

/-- rand's `Rng::gen_bool(p)` (a Bernoulli draw): `p ≥ 1` is special-cased
to `true` without consuming the generator; otherwise one draw `d` is
consumed and compared against `p·2⁶⁴` (rand compares a `u64` draw with
`(p * 2^64) as u64`; the comparison `d < p·2⁶⁴` is written in the
equivalent integer form `d·p.den < p.num·2⁶⁴` since `p.den > 0`).
Defined on the configuration contract `0 ≤ p ≤ 1`. -/
def genBool (p : ℚ) (r : Rng) : Bool × Rng :=
  if 1 ≤ p then (true, r)
  else
    let dr := r.next
    (decide ((dr.1 : Int) * (p.den : Int) < p.num * 18446744073709551616), dr.2)

/-- Swap two positions of a list (out-of-range indices leave it unchanged). -/
def swapL {α : Type} (l : List α) (i j : Nat) : List α :=
  match l[i]?, l[j]? with
  | some a, some b => (l.set i b).set j a
  | _, _ => l

/-- Rust `SliceRandom::shuffle` (Fisher–Yates): for `i` from `len - 1`
down to `1`, draw `j ∈ 0..=i` and swap positions `i` and `j`. -/
def shuffle {α : Type} (l : List α) (r : Rng) : List α × Rng :=
  ((List.range' 1 (l.length - 1)).reverse).foldl
    (fun p i =>
      let dr := p.2.next
      (swapL p.1 i (dr.1 % (i + 1)), dr.2))
    (l, r)

/-- Rust `SliceRandom::choose`: `None` on an empty slice (consuming no
draw), otherwise one draw selects an index uniformly (modelled as the draw
modulo the length). -/
def chooseL {α : Type} (l : List α) (r : Rng) : Option (α × Rng) :=
  match l with
  | [] => none
  | _ :: _ =>
    let dr := r.next
    match l[dr.1 % l.length]? with
    | some a => some (a, dr.2)
    | none => none

/-- `brain_components.rs`: `State::random_element` — `self.0.choose(rng)`
followed by `unwrap` (so `none` models the panic on an empty state). -/
def randomElement (s : State) (r : Rng) : Option (StateElement × Rng) :=
  chooseL s r

/-- Cumulative walk of a weighted list at a point below the total weight
(the sampling underlying rand's `WeightedIndex`). -/
def pickWeighted : List (StateElement × Nat) → Nat → Option StateElement
  | [], _ => none
  | p :: rest, k => if k < p.2 then some p.1 else pickWeighted rest (k - p.2)

/-- Rust `SliceRandom::choose_weighted` with weight `item.1`: errors (here
`none`, modelling the `unwrap` panic in `get_element`) when the total
weight is zero — in particular on an empty list — and otherwise consumes
one draw `d` and picks the element whose cumulative-weight interval
contains `d mod total`. -/
def chooseWeighted (l : List (StateElement × Nat)) (r : Rng) :
    Option (StateElement × Rng) :=
  let total := (l.map (fun p => p.2)).sum
  if total = 0 then none
  else
    let dr := r.next
    match pickWeighted l (dr.1 % total) with
    | some a => some (a, dr.2)
    | none => none

/-- The neighbor list of a transition in a direction. -/
def dirList (t : Transistion) : SentenceDirection → List (StateElement × Nat)
  | SentenceDirection.Backward => t.prev
  | SentenceDirection.Forward => t.next

/-- The boundary marker a missing direction resolves to. -/
def boundaryMarker : SentenceDirection → StateElement
  | SentenceDirection.Backward => StateElement.Marker SentenceMarker.Start
  | SentenceDirection.Forward => StateElement.Marker SentenceMarker.End

/-- The slice of the current sentence looked up for a candidate context
length: `sentence[0..min]` backward, `sentence[len - min..len]` forward,
with `min = state_size.min(sentence.len())` (`brain.rs` `get_element`). -/
def sliceFor (direction : SentenceDirection) (sentence : List StateElement)
    (state_size : Nat) : State :=
  match direction with
  | SentenceDirection.Backward => sentence.take (Nat.min state_size sentence.length)
  | SentenceDirection.Forward =>
    sentence.drop (sentence.length - Nat.min state_size sentence.length)

/-- `brain.rs` `get_element`, the `for state_size in range` loop: the
mutable `transition` variable is overwritten by each lookup; `continue` on
`None`, `break` on a hit. -/
def getElementLoop (σ : Store) (direction : SentenceDirection)
    (sentence : List StateElement) : List Nat → Option Transistion → Option Transistion
  | [], acc => acc
  | state_size :: rest, _ =>
    match lookupT σ (sliceFor direction sentence state_size) with
    | some t => some t
    | none => getElementLoop σ direction sentence rest none

/-- `brain.rs`: `Brain::get_element`.  Resolves to the boundary marker
(consuming no randomness) when no candidate length matches, otherwise
samples the matched transition's directed list weighted by count.  `none`
models the `unwrap` panic of `choose_weighted` on a zero-total list. -/
def getElement (σ : Store) (cfg : BrainConfig) (direction : SentenceDirection)
    (sentence : List StateElement) (r : Rng) : Option (StateElement × Rng) :=
  match getElementLoop σ direction sentence cfg.get_state_range none with
  | none => some (boundaryMarker direction, r)
  | some t => chooseWeighted (dirList t direction) r

/-- `brain.rs` `_generate`: `state_with_element_vec`, the linear scan for
all states containing a given element. -/
def stateWithElementVec (σ : Store) (e : StateElement) : List State :=
  σ.filterMap (fun p => if e ∈ p.1 then some p.1 else none)

/-- `brain.rs` `_generate`, the seeding loop: pop words (the argument list
is already reversed, so popping is head recursion), collect the states
containing the word, `continue` when there are none, otherwise choose a
state and a uniform element inside it and break.  Runs on the clone
`rng_clone`; the outer `none` models the `random_element` panic on an
empty state key, `some none` means no input word matched. -/
def seedLoop (σ : Store) (rc : Rng) : List String → Option (Option StateElement)
  | [] => some none
  | w :: rest =>
    match chooseL (stateWithElementVec σ (StateElement.Word w)) rc with
    | none => seedLoop σ rc rest
    | some str =>
      match randomElement str.1 str.2 with
      | none => none
      | some er => some (some er.1)

/-- The seeding loop as called on the shuffled word vector (Rust pops from
the back of the `Vec`). -/
def seedSearch (σ : Store) (ws : List String) (rc : Rng) : Option (Option StateElement) :=
  seedLoop σ rc ws.reverse

/-- `IteratorRandom::choose` over `state_transitions.keys()` followed by
`unwrap`: a uniform pick among the keys (modelled as one draw). -/
def keysChoose (σ : Store) (r : Rng) : Option (State × Rng) :=
  chooseL (σ.map (fun p => p.1)) r

/-- Rust `str::trim_end` (ASCII-whitespace fragment) on the input line. -/
def trimEnd (s : String) : List Char :=
  (s.data.reverse.dropWhile Char.isWhitespace).reverse

/-- `_generate`'s input tokenization: `input.trim_end().split(&SPLIT_CHARS)`
collected verbatim — no lower-casing and no empty-token filtering. -/
def generationWords (input : String) : List String :=
  (splitChars (trimEnd input)).map String.mk

/-- Final sentence rendering: keep `Word` elements and join with spaces. -/
def joinSentence (sentence : List StateElement) : String :=
  String.intercalate " "
    (sentence.filterMap (fun e =>
      match e with
      | StateElement.Word w => some w
      | StateElement.Marker _ => none))

/-- One boundary-seeking loop of `_generate` (backward: prepend until the
first element is `Start`; forward: append until the last is `End`),
with explicit fuel: fuel exhaustion models non-termination and `none`
from `get_element` models its panic. -/
def extendLoop (σ : Store) (cfg : BrainConfig) (direction : SentenceDirection) :
    Nat → List StateElement → Rng → Option (List StateElement × Rng)
  | 0, _, _ => none
  | fuel + 1, sentence, r =>
    let stop : Bool :=
      match direction with
      | SentenceDirection.Backward =>
        sentence.headD (StateElement.Marker SentenceMarker.Placeholder) =
          StateElement.Marker SentenceMarker.Start
      | SentenceDirection.Forward =>
        sentence.getLastD (StateElement.Marker SentenceMarker.Placeholder) =
          StateElement.Marker SentenceMarker.End
    if stop then some (sentence, r)
    else
      match getElement σ cfg direction sentence r with
      | none => none
      | some er =>
        match direction with
        | SentenceDirection.Backward => extendLoop σ cfg direction fuel (er.1 :: sentence) er.2
        | SentenceDirection.Forward => extendLoop σ cfg direction fuel (sentence ++ [er.1]) er.2

/-- The outcome of a generation call: the result (`none` = panic or
non-termination, `some none` = `Ok(None)`, `some (some s)` = `Ok(Some s)`),
the store after the call, and the engine's PRNG after the call. -/
structure GenOut where
  result : Option (Option String)
  store : Store
  rng : Rng

/-- `brain.rs` `_generate` from the input-tokenization line onward: shuffle
the input words, seed via the cloned PRNG (falling back to a uniform key of
the store), then extend backward and forward with the engine's PRNG, ingest
the input when training, and join the words of the sentence. -/
def seedExtend (σ : Store) (cfg : BrainConfig) (input : String) (r : Rng)
    (fuel : Nat) : GenOut :=
  let sh := shuffle (generationWords input) r
  let r2 := sh.2
  match seedSearch σ sh.1 r2 with
  | none => { result := none, store := σ, rng := r2 }
  | some seedOpt =>
    match
      (match seedOpt with
       | some e => some (e, r2)
       | none =>
         match keysChoose σ r2 with
         | none => none
         | some sr => randomElement sr.1 sr.2) with
    | none => { result := none, store := σ, rng := r2 }
    | some er =>
      match extendLoop σ cfg SentenceDirection.Backward fuel [er.1] er.2 with
      | none => { result := none, store := σ, rng := er.2 }
      | some br =>
        match extendLoop σ cfg SentenceDirection.Forward fuel br.1 br.2 with
        | none => { result := none, store := σ, rng := br.2 }
        | some fr =>
          { result := some (some (joinSentence fr.1)),
            store := if cfg.training then ingest cfg.max_ingestion_state_size σ input else σ,
            rng := fr.2 }

/-- `brain.rs`: `Brain::_generate`.  Empty-store and gating checks first
(note that `!self.rng.gen_bool(reply_rate) && !bypass_checks` evaluates the
Bernoulli draw before consulting the bypass flag), then the seeding and
extension pipeline. -/
def _generate (σ : Store) (cfg : BrainConfig) (input : String)
    (bypass_checks : Bool) (r : Rng) (fuel : Nat) : GenOut :=
  if σ.length = 0 then
    { result := some none,
      store := if cfg.training then ingest cfg.max_ingestion_state_size σ input else σ,
      rng := r }
  else if cfg.mute && !bypass_checks then
    { result := some none,
      store := if cfg.training then ingest cfg.max_ingestion_state_size σ input else σ,
      rng := r }
  else
    let br := genBool cfg.reply_rate r
    if !br.1 && !bypass_checks then
      { result := some none,
        store := if cfg.training then ingest cfg.max_ingestion_state_size σ input else σ,
        rng := br.2 }
    else
      seedExtend σ cfg input br.2 fuel

/-- `brain.rs`: `Brain::generate` (no bypass). -/
def generate (σ : Store) (cfg : BrainConfig) (input : String) (r : Rng)
    (fuel : Nat) : GenOut :=
  _generate σ cfg input false r fuel

/-- `brain.rs`: `Brain::generate_bypass_checks`: the inner result is
unwrapped, so a normal `Ok(None)` becomes a panic (`none`). -/
def generate_bypass_checks (σ : Store) (cfg : BrainConfig) (input : String)
    (r : Rng) (fuel : Nat) : Option String × Store × Rng :=
  let g := _generate σ cfg input true r fuel
  (g.result.bind (fun o => o), g.store, g.rng)

/-! ### Spec-side reconstructions and concrete instances -/

/-- The tokenizer output shape as §4.1 of the spec words it: lower-case,
split, drop empty tokens, map the remaining tokens to `Word` elements, and
wrap as `[Placeholder, Start, words…, End, Placeholder]`. -/
def tokenizeSpec (line : String) : List StateElement :=
  StateElement.Marker SentenceMarker.Placeholder ::
    StateElement.Marker SentenceMarker.Start ::
      ((((splitChars (line.data.map Char.toLower)).map String.mk).filter
            (fun w => w ≠ "")).map StateElement.Word ++
        [StateElement.Marker SentenceMarker.End,
         StateElement.Marker SentenceMarker.Placeholder])

/-- `get_element` as §4.4 of the spec words it: find the first candidate
length in the ascending half-open range whose slice is a known state; on a
hit sample its directed list weighted by count, otherwise resolve to the
boundary marker. -/
def getElementSpec (σ : Store) (cfg : BrainConfig) (direction : SentenceDirection)
    (sentence : List StateElement) (r : Rng) : Option (StateElement × Rng) :=
  match cfg.get_state_range.find?
      (fun L => (lookupT σ (sliceFor direction sentence L)).isSome) with
  | some L =>
    match lookupT σ (sliceFor direction sentence L) with
    | some t => chooseWeighted (dirList t direction) r
    | none => some (boundaryMarker direction, r)
  | none => some (boundaryMarker direction, r)

/-- The store of the spec's end-to-end example: one ingested line with
`max_ingestion_state_size = 2`. -/
def exampleStore : Store := ingest 2 [] "the cat sat"

/-- The generation configuration of the spec's end-to-end example. -/
def exampleCfg : BrainConfig :=
  { max_ingestion_state_size := 2, training := false, mute := false,
    reply_rate := 1, min_generation_state_size := 1,
    max_generation_state_size := 2, excluded_words := [] }

/-- A PRNG stream that always draws 0. -/
def rngZero : Rng := { stream := fun _ => 0, pos := 0 }

/-- The PRNG stream drawing 0, 1, 2, …. -/
def rngId : Rng := { stream := fun n => n, pos := 0 }

/-- `exampleCfg` with a zero reply probability. -/
def zeroRateCfg : BrainConfig := { exampleCfg with reply_rate := 0 }

/-- A non-empty store whose only transition has empty neighbor lists. -/
def emptyListsStore : Store :=
  [([StateElement.Word "w"], { prev := [], next := [] })]

/-! ### Observation functions for the counting and invariant claims -/

/-- Total occurrence count of an element in a weighted list. -/
def countL (l : List (StateElement × Nat)) (e : StateElement) : Nat :=
  (l.map (fun p => if p.1 = e then p.2 else 0)).sum

/-- Number of entries of a weighted list keyed by an element. -/
def multL (l : List (StateElement × Nat)) (e : StateElement) : Nat :=
  l.countP (fun p => p.1 = e)

/-- Occurrence count of neighbor `e` in direction `dir` of state `s`. -/
def countS (σ : Store) (s : State) (dir : SentenceDirection) (e : StateElement) : Nat :=
  match lookupT σ s with
  | none => 0
  | some t => countL (dirList t dir) e

/-- Number of entries keyed by `e` in direction `dir` of state `s`. -/
def multS (σ : Store) (s : State) (dir : SentenceDirection) (e : StateElement) : Nat :=
  match lookupT σ s with
  | none => 0
  | some t => multL (dirList t dir) e

/-- The neighbor element a window contributes in a direction (its first
element backward, its last element forward). -/
def dirElem (dir : SentenceDirection) (w : List StateElement) : StateElement :=
  match dir with
  | SentenceDirection.Backward => w.headD (StateElement.Marker SentenceMarker.Placeholder)
  | SentenceDirection.Forward => w.getLastD (StateElement.Marker SentenceMarker.Placeholder)

/-- Number of increments (0 or 1) a single window contributes to the
occurrence count of `(s, dir, e)` (a `Placeholder` neighbor is skipped). -/
def hitW (state_size : Nat) (w : List StateElement) (s : State)
    (dir : SentenceDirection) (e : StateElement) : Nat :=
  if (w.drop 1).take state_size = s ∧ dirElem dir w = e ∧
      e ≠ StateElement.Marker SentenceMarker.Placeholder then 1 else 0

/-- Total increments contributed by a window list. -/
def hitsWs (state_size : Nat) (ws : List (List StateElement)) (s : State)
    (dir : SentenceDirection) (e : StateElement) : Nat :=
  (ws.map (fun w => hitW state_size w s dir e)).sum

/-- Total increments one ingested element list contributes to `(s, dir, e)`
across all processed state sizes. -/
def hitsLine (n : Nat) (elements : List StateElement) (s : State)
    (dir : SentenceDirection) (e : StateElement) : Nat :=
  ((List.range n).map (fun k =>
    if elements.length ≤ k + 1 then 0
    else hitsWs (k + 1) (windows (k + 3) elements) s dir e)).sum

/-- Whether some processed window of the element list has middle `s`. -/
def lineHasState (n : Nat) (elements : List StateElement) (s : State) : Bool :=
  (List.range n).any (fun k =>
    if elements.length ≤ k + 1 then false
    else (windows (k + 3) elements).any (fun w => (w.drop 1).take (k + 1) = s))

/-- The interior of a tokenized line: everything between the two
`Placeholder` paddings. -/
def tokMid (line : String) : List StateElement :=
  StateElement.Marker SentenceMarker.Start ::
    ((splitChars (line.data.map Char.toLower)).filterMap
        (fun cs => if String.mk cs ≠ "" then some (StateElement.Word (String.mk cs)) else none) ++
      [StateElement.Marker SentenceMarker.End])

/-- Whether a word contains an (ASCII) upper-case character. -/
def containsUpper (w : String) : Bool :=
  w.data.any (fun c => 65 ≤ c.toNat && c.toNat ≤ 90)

/-- Neither neighbor list of a transition mentions a `Placeholder`. -/
def TransNoP (t : Transistion) : Prop :=
  (∀ q ∈ t.prev, q.1 ≠ StateElement.Marker SentenceMarker.Placeholder) ∧
  (∀ q ∈ t.next, q.1 ≠ StateElement.Marker SentenceMarker.Placeholder)

/-- No transition of the store mentions a `Placeholder` neighbor. -/
def StoreNoP (σ : Store) : Prop := ∀ p ∈ σ, TransNoP p.2

/-! ### Generic helper lemmas -/

lemma filterMap_token_eq (l : List (List Char)) :
    l.filterMap
        (fun cs => if String.mk cs ≠ "" then some (StateElement.Word (String.mk cs)) else none) =
      ((l.map String.mk).filter (fun w => w ≠ "")).map StateElement.Word := by
  induction l with
  | nil => rfl
  | cons a t ih =>
    by_cases h : String.mk a = ""
    · simpa [List.filterMap_cons, List.filter_cons, h] using ih
    · simpa [List.filterMap_cons, List.filter_cons, h] using ih

lemma getElementLoop_eq_find (σ : Store) (direction : SentenceDirection)
    (sentence : List StateElement) :
    ∀ sizes : List Nat,
      getElementLoop σ direction sentence sizes none =
        match sizes.find? (fun L => (lookupT σ (sliceFor direction sentence L)).isSome) with
        | some L => lookupT σ (sliceFor direction sentence L)
        | none => none := by
  intro sizes
  induction sizes with
  | nil => rfl
  | cons a t ih =>
    cases h : lookupT σ (sliceFor direction sentence a) with
    | none => simp [getElementLoop, List.find?_cons, h, ih]
    | some tr => simp [getElementLoop, List.find?_cons, h]

lemma genBool_zero (r : Rng) : genBool 0 r = (false, r.advance 1) := by
  have h1 : ¬ (1 : ℚ) ≤ 0 := by norm_num
  have h2 : ¬ ((r.stream r.pos : Int) < 0) := Int.not_lt.mpr (Int.natCast_nonneg _)
  simp [genBool, Rng.next, Rng.advance, h1, h2]

lemma seedExtend_result_ne_some_none (σ : Store) (cfg : BrainConfig)
    (input : String) (r : Rng) (fuel : Nat) :
    (seedExtend σ cfg input r fuel).result ≠ some none := by
  simp only [seedExtend]
  repeat' split
  all_goals simp

lemma find?_map_upd (σ : Store) (s s' : State) (f : Transistion → Transistion) :
    (σ.map (fun p => if p.1 = s then (p.1, f p.2) else p)).find? (fun p => p.1 = s') =
      (σ.find? (fun p => p.1 = s')).map (fun p => if p.1 = s then (p.1, f p.2) else p) := by
  have hfun : ((fun p : State × Transistion => decide (p.1 = s')) ∘
      fun p => if p.1 = s then (p.1, f p.2) else p) =
      fun p : State × Transistion => decide (p.1 = s') := by
    funext p
    by_cases hp : p.1 = s <;> simp [hp]
  rw [List.find?_map, hfun]

lemma find?_append_single (σ : Store) (x : State × Transistion)
    (q : State × Transistion → Bool) :
    (σ ++ [x]).find? q =
      match σ.find? q with
      | some y => some y
      | none => if q x then some x else none := by
  induction σ with
  | nil => by_cases h : q x <;> simp [List.find?_cons, h]
  | cons a t ih => by_cases h : q a <;> simp [List.find?_cons, h, ih]

lemma lookupT_storeUpdate (σ : Store) (s : State) (f : Transistion → Transistion)
    (s' : State) :
    lookupT (storeUpdate σ s f) s' =
      if s' = s then some (f ((lookupT σ s).getD { prev := [], next := [] }))
      else lookupT σ s' := by
  unfold storeUpdate lookupT
  by_cases hin : σ.any (fun p => p.1 = s)
  · rw [if_pos hin, find?_map_upd]
    by_cases hss : s' = s
    · subst hss
      obtain ⟨a, ha, hpa⟩ := List.any_eq_true.mp hin
      have hsome : (σ.find? (fun p => decide (p.1 = s'))).isSome := by
        rw [List.find?_isSome]
        exact ⟨a, ha, hpa⟩
      obtain ⟨b, hb⟩ := Option.isSome_iff_exists.mp hsome
      have hbk : b.1 = s' := by simpa using List.find?_some hb
      simp [hb, hbk]
    · rw [if_neg hss]
      cases hfind : σ.find? (fun p => decide (p.1 = s')) with
      | none => simp
      | some b =>
        have hbk : b.1 = s' := by simpa using List.find?_some hfind
        have hbs : ¬ b.1 = s := by rw [hbk]; exact hss
        simp [hbs]
  · rw [if_neg hin, find?_append_single]
    have hnone : σ.find? (fun p => decide (p.1 = s)) = none := by
      rw [List.find?_eq_none]
      intro x hx
      simp only [decide_eq_true_eq]
      intro hxs
      exact absurd (List.any_eq_true.mpr ⟨x, hx, by simp [hxs]⟩) hin
    by_cases hss : s' = s
    · subst hss
      simp [hnone]
    · cases hfind : σ.find? (fun p => decide (p.1 = s')) with
      | none => simp [hss, Ne.symm hss, if_neg hss]
      | some b => simp [hss]

lemma keyMem_storeUpdate (σ : Store) (s : State) (f : Transistion → Transistion)
    (s' : State) :
    keyMem (storeUpdate σ s f) s' = (keyMem σ s' || decide (s' = s)) := by
  unfold storeUpdate keyMem
  by_cases hin : σ.any (fun p => p.1 = s)
  · rw [if_pos hin, List.any_map]
    have hfun : ((fun p : State × Transistion => decide (p.1 = s')) ∘
        fun p => if p.1 = s then (p.1, f p.2) else p) =
        fun p : State × Transistion => decide (p.1 = s') := by
      funext p
      by_cases hp : p.1 = s <;> simp [hp]
    rw [hfun]
    by_cases hss : s' = s
    · subst hss
      simp [hin]
    · simp [hss]
  · rw [if_neg hin, List.any_append]
    by_cases hss : s' = s
    · subst hss
      simp
    · simp [hss, Ne.symm hss]

lemma countL_append (l₁ l₂ : List (StateElement × Nat)) (x : StateElement) :
    countL (l₁ ++ l₂) x = countL l₁ x + countL l₂ x := by
  simp [countL]

lemma multL_append (l₁ l₂ : List (StateElement × Nat)) (x : StateElement) :
    multL (l₁ ++ l₂) x = multL l₁ x + multL l₂ x := by
  simp [multL, List.countP_append]

lemma countL_cons (p : StateElement × Nat) (l : List (StateElement × Nat))
    (x : StateElement) :
    countL (p :: l) x = (if p.1 = x then p.2 else 0) + countL l x := by
  simp [countL]

lemma multL_cons (p : StateElement × Nat) (l : List (StateElement × Nat))
    (x : StateElement) :
    multL (p :: l) x = (if p.1 = x then 1 else 0) + multL l x := by
  by_cases h : p.1 = x <;> simp [multL, List.countP_cons, h, Nat.add_comm]

lemma countL_bump (l : List (StateElement × Nat)) (e x : StateElement) :
    countL (l.map (fun p => if p.1 = e then (p.1, p.2 + 1) else p)) x =
      countL l x + (if x = e then multL l e else 0) := by
  induction l with
  | nil => simp [countL, multL]
  | cons p t ih =>
    by_cases hp : p.1 = e
    · have hbump : (if p.1 = e then (p.1, p.2 + 1) else p) = (p.1, p.2 + 1) := if_pos hp
      rw [List.map_cons, hbump, countL_cons, countL_cons, multL_cons, ih]
      by_cases hx : x = e
      · have hpx : p.1 = x := by rw [hp, hx]
        simp [hpx, hx, hp]
        omega
      · have hpx : ¬ p.1 = x := fun hcon => hx (by rw [← hcon, hp])
        simp [hpx, hx]
    · have hbump : (if p.1 = e then (p.1, p.2 + 1) else p) = p := if_neg hp
      rw [List.map_cons, hbump, countL_cons, countL_cons, multL_cons, ih]
      by_cases hx : x = e
      · have hpx : ¬ p.1 = x := fun hcon => hp (by rw [hcon, hx])
        simp [hpx, hx, hp]
      · simp [hx]

lemma multL_bump (l : List (StateElement × Nat)) (e x : StateElement) :
    multL (l.map (fun p => if p.1 = e then (p.1, p.2 + 1) else p)) x = multL l x := by
  induction l with
  | nil => rfl
  | cons p t ih =>
    by_cases hp : p.1 = e
    · have hbump : (if p.1 = e then (p.1, p.2 + 1) else p) = (p.1, p.2 + 1) := if_pos hp
      rw [List.map_cons, hbump, multL_cons, multL_cons, ih]
    · have hbump : (if p.1 = e then (p.1, p.2 + 1) else p) = p := if_neg hp
      rw [List.map_cons, hbump, multL_cons, multL_cons, ih]

lemma any_key_iff_multL_pos (l : List (StateElement × Nat)) (e : StateElement) :
    l.any (fun p => p.1 = e) = true ↔ 0 < multL l e := by
  rw [List.any_eq_true, multL, List.countP_pos_iff]

lemma countL_incrementList (l : List (StateElement × Nat)) (e x : StateElement) :
    countL (incrementList l e) x =
      countL l x + (if x = e then max (multL l e) 1 else 0) := by
  unfold incrementList
  by_cases ha : l.any (fun p => p.1 = e)
  · have hm : 0 < multL l e := (any_key_iff_multL_pos l e).mp ha
    rw [if_pos ha, countL_bump]
    by_cases hx : x = e
    · simp [hx]
      omega
    · simp [hx]
  · have hm : multL l e = 0 := by
      rcases Nat.eq_zero_or_pos (multL l e) with h | h
      · exact h
      · exact absurd ((any_key_iff_multL_pos l e).mpr h) ha
    rw [if_neg ha, countL_append, countL_cons]
    by_cases hx : x = e
    · subst hx
      rw [hm]
      simp [countL]
    · have hex : ¬ e = x := fun hcon => hx hcon.symm
      simp [hex, hx, countL]

lemma multL_incrementList (l : List (StateElement × Nat)) (e x : StateElement) :
    multL (incrementList l e) x =
      if x = e then max (multL l e) 1 else multL l x := by
  unfold incrementList
  by_cases ha : l.any (fun p => p.1 = e)
  · have hm : 0 < multL l e := (any_key_iff_multL_pos l e).mp ha
    rw [if_pos ha, multL_bump]
    by_cases hx : x = e
    · simp [hx]
      omega
    · simp [hx]
  · have hm : multL l e = 0 := by
      rcases Nat.eq_zero_or_pos (multL l e) with h | h
      · exact h
      · exact absurd ((any_key_iff_multL_pos l e).mpr h) ha
    rw [if_neg ha, multL_append, multL_cons]
    by_cases hx : x = e
    · subst hx
      rw [hm]
      simp [multL]
    · have hex : ¬ e = x := fun hcon => hx hcon.symm
      simp [hex, hx, multL]

lemma next_inc_backward (t : Transistion) (e : StateElement) :
    (t.increment_occurence SentenceDirection.Backward e).next = t.next := by
  unfold Transistion.increment_occurence
  split <;> rfl

lemma prev_inc_forward (t : Transistion) (e : StateElement) :
    (t.increment_occurence SentenceDirection.Forward e).prev = t.prev := by
  unfold Transistion.increment_occurence
  split <;> rfl

lemma prev_inc_backward (t : Transistion) (e : StateElement) :
    (t.increment_occurence SentenceDirection.Backward e).prev =
      if e = StateElement.Marker SentenceMarker.Placeholder then t.prev
      else incrementList t.prev e := by
  unfold Transistion.increment_occurence
  split <;> simp_all

lemma next_inc_forward (t : Transistion) (e : StateElement) :
    (t.increment_occurence SentenceDirection.Forward e).next =
      if e = StateElement.Marker SentenceMarker.Placeholder then t.next
      else incrementList t.next e := by
  unfold Transistion.increment_occurence
  split <;> simp_all

lemma countS_eq_getD (σ : Store) (s : State) (dir : SentenceDirection) (e : StateElement) :
    countS σ s dir e =
      countL (dirList ((lookupT σ s).getD { prev := [], next := [] }) dir) e := by
  cases h : lookupT σ s
  · cases dir <;> simp [countS, h, dirList, countL]
  · simp [countS, h]

lemma multS_eq_getD (σ : Store) (s : State) (dir : SentenceDirection) (e : StateElement) :
    multS σ s dir e =
      multL (dirList ((lookupT σ s).getD { prev := [], next := [] }) dir) e := by
  cases h : lookupT σ s
  · cases dir <;> simp [multS, h, dirList, multL]
  · simp [multS, h]

lemma countL_inc2 (t : Transistion) (w : List StateElement) (e : StateElement)
    (dir : SentenceDirection) :
    countL (dirList ((t.increment_occurence SentenceDirection.Backward
        (w.headD (StateElement.Marker SentenceMarker.Placeholder))).increment_occurence
        SentenceDirection.Forward
        (w.getLastD (StateElement.Marker SentenceMarker.Placeholder))) dir) e =
      countL (dirList t dir) e +
        (if dirElem dir w = e ∧ e ≠ StateElement.Marker SentenceMarker.Placeholder
          then 1 else 0) * max (multL (dirList t dir) e) 1 := by
  cases dir
  case Backward =>
    simp only [dirList, dirElem, prev_inc_forward, prev_inc_backward]
    by_cases hpe : w.headD (StateElement.Marker SentenceMarker.Placeholder) =
        StateElement.Marker SentenceMarker.Placeholder
    · have h0 : ¬ (w.headD (StateElement.Marker SentenceMarker.Placeholder) = e ∧
          e ≠ StateElement.Marker SentenceMarker.Placeholder) := by
        rintro ⟨h1, h2⟩
        apply h2
        rw [← h1]
        exact hpe
      rw [if_pos hpe, if_neg h0]
      simp
    · rw [if_neg hpe, countL_incrementList]
      by_cases hep : e = w.headD (StateElement.Marker SentenceMarker.Placeholder)
      · subst hep
        rw [List.headD_eq_head?_getD] at hpe
        simp [hpe]
      · have h0 : ¬ (w.headD (StateElement.Marker SentenceMarker.Placeholder) = e ∧
            e ≠ StateElement.Marker SentenceMarker.Placeholder) := by
          rintro ⟨h1, _⟩
          exact hep h1.symm
        rw [if_neg h0, if_neg hep]
        simp
  case Forward =>
    simp only [dirList, dirElem, next_inc_forward, next_inc_backward]
    by_cases hne : w.getLastD (StateElement.Marker SentenceMarker.Placeholder) =
        StateElement.Marker SentenceMarker.Placeholder
    · have h0 : ¬ (w.getLastD (StateElement.Marker SentenceMarker.Placeholder) = e ∧
          e ≠ StateElement.Marker SentenceMarker.Placeholder) := by
        rintro ⟨h1, h2⟩
        apply h2
        rw [← h1]
        exact hne
      rw [if_pos hne, if_neg h0]
      simp
    · rw [if_neg hne, countL_incrementList]
      by_cases hep : e = w.getLastD (StateElement.Marker SentenceMarker.Placeholder)
      · subst hep
        rw [List.getLastD_eq_getLast?] at hne
        simp [hne]
      · have h0 : ¬ (w.getLastD (StateElement.Marker SentenceMarker.Placeholder) = e ∧
            e ≠ StateElement.Marker SentenceMarker.Placeholder) := by
          rintro ⟨h1, _⟩
          exact hep h1.symm
        rw [if_neg h0, if_neg hep]
        simp

lemma multL_inc2 (t : Transistion) (w : List StateElement) (e : StateElement)
    (dir : SentenceDirection) :
    multL (dirList ((t.increment_occurence SentenceDirection.Backward
        (w.headD (StateElement.Marker SentenceMarker.Placeholder))).increment_occurence
        SentenceDirection.Forward
        (w.getLastD (StateElement.Marker SentenceMarker.Placeholder))) dir) e =
      max (multL (dirList t dir) e)
        (if dirElem dir w = e ∧ e ≠ StateElement.Marker SentenceMarker.Placeholder
          then 1 else 0) := by
  cases dir
  case Backward =>
    simp only [dirList, dirElem, prev_inc_forward, prev_inc_backward]
    by_cases hpe : w.headD (StateElement.Marker SentenceMarker.Placeholder) =
        StateElement.Marker SentenceMarker.Placeholder
    · have h0 : ¬ (w.headD (StateElement.Marker SentenceMarker.Placeholder) = e ∧
          e ≠ StateElement.Marker SentenceMarker.Placeholder) := by
        rintro ⟨h1, h2⟩
        apply h2
        rw [← h1]
        exact hpe
      rw [if_pos hpe, if_neg h0]
      simp
    · rw [if_neg hpe, multL_incrementList]
      by_cases hep : e = w.headD (StateElement.Marker SentenceMarker.Placeholder)
      · subst hep
        rw [List.headD_eq_head?_getD] at hpe
        simp [hpe]
      · have h0 : ¬ (w.headD (StateElement.Marker SentenceMarker.Placeholder) = e ∧
            e ≠ StateElement.Marker SentenceMarker.Placeholder) := by
          rintro ⟨h1, _⟩
          exact hep h1.symm
        rw [if_neg h0, if_neg hep]
        simp
  case Forward =>
    simp only [dirList, dirElem, next_inc_forward, next_inc_backward]
    by_cases hne : w.getLastD (StateElement.Marker SentenceMarker.Placeholder) =
        StateElement.Marker SentenceMarker.Placeholder
    · have h0 : ¬ (w.getLastD (StateElement.Marker SentenceMarker.Placeholder) = e ∧
          e ≠ StateElement.Marker SentenceMarker.Placeholder) := by
        rintro ⟨h1, h2⟩
        apply h2
        rw [← h1]
        exact hne
      rw [if_pos hne, if_neg h0]
      simp
    · rw [if_neg hne, multL_incrementList]
      by_cases hep : e = w.getLastD (StateElement.Marker SentenceMarker.Placeholder)
      · subst hep
        rw [List.getLastD_eq_getLast?] at hne
        simp [hne]
      · have h0 : ¬ (w.getLastD (StateElement.Marker SentenceMarker.Placeholder) = e ∧
            e ≠ StateElement.Marker SentenceMarker.Placeholder) := by
          rintro ⟨h1, _⟩
          exact hep h1.symm
        rw [if_neg h0, if_neg hep]
        simp

lemma lookupT_storeUpdate_self (σ : Store) (s : State) (f : Transistion → Transistion) :
    lookupT (storeUpdate σ s f) s =
      some (f ((lookupT σ s).getD { prev := [], next := [] })) := by
  rw [lookupT_storeUpdate, if_pos rfl]

lemma countS_applyWindow (sz : Nat) (σ : Store) (w : List StateElement)
    (s : State) (dir : SentenceDirection) (e : StateElement) :
    countS (applyWindow sz σ w) s dir e =
      countS σ s dir e + hitW sz w s dir e * max (multS σ s dir e) 1 := by
  by_cases hk : s = (w.drop 1).take sz
  · subst hk
    rw [countS_eq_getD (applyWindow sz σ w)]
    simp only [applyWindow]
    rw [lookupT_storeUpdate_self, Option.getD_some, countL_inc2,
      ← countS_eq_getD σ, ← multS_eq_getD σ]
    have hcond : hitW sz w ((w.drop 1).take sz) dir e =
        if dirElem dir w = e ∧ e ≠ StateElement.Marker SentenceMarker.Placeholder
          then 1 else 0 := by
      unfold hitW
      by_cases hc : dirElem dir w = e ∧ e ≠ StateElement.Marker SentenceMarker.Placeholder
      · rw [if_pos ⟨rfl, hc⟩, if_pos hc]
      · rw [if_neg, if_neg hc]
        rintro ⟨_, h2, h3⟩
        exact hc ⟨h2, h3⟩
    rw [hcond]
  · have hk2 : ¬ ((w.drop 1).take sz = s) := fun hc => hk hc.symm
    have h0 : hitW sz w s dir e = 0 := by
      unfold hitW
      rw [if_neg]
      rintro ⟨h1, _⟩
      exact hk2 h1
    rw [h0, Nat.zero_mul, Nat.add_zero, countS_eq_getD (applyWindow sz σ w)]
    simp only [applyWindow]
    rw [lookupT_storeUpdate, if_neg hk, ← countS_eq_getD]

lemma multS_applyWindow (sz : Nat) (σ : Store) (w : List StateElement)
    (s : State) (dir : SentenceDirection) (e : StateElement) :
    multS (applyWindow sz σ w) s dir e =
      max (multS σ s dir e) (hitW sz w s dir e) := by
  by_cases hk : s = (w.drop 1).take sz
  · subst hk
    rw [multS_eq_getD (applyWindow sz σ w)]
    simp only [applyWindow]
    rw [lookupT_storeUpdate_self, Option.getD_some, multL_inc2, ← multS_eq_getD σ]
    have hcond : hitW sz w ((w.drop 1).take sz) dir e =
        if dirElem dir w = e ∧ e ≠ StateElement.Marker SentenceMarker.Placeholder
          then 1 else 0 := by
      unfold hitW
      by_cases hc : dirElem dir w = e ∧ e ≠ StateElement.Marker SentenceMarker.Placeholder
      · rw [if_pos ⟨rfl, hc⟩, if_pos hc]
      · rw [if_neg, if_neg hc]
        rintro ⟨_, h2, h3⟩
        exact hc ⟨h2, h3⟩
    rw [hcond]
  · have hk2 : ¬ ((w.drop 1).take sz = s) := fun hc => hk hc.symm
    have h0 : hitW sz w s dir e = 0 := by
      unfold hitW
      rw [if_neg]
      rintro ⟨h1, _⟩
      exact hk2 h1
    rw [h0, Nat.max_zero, multS_eq_getD (applyWindow sz σ w)]
    simp only [applyWindow]
    rw [lookupT_storeUpdate, if_neg hk, ← multS_eq_getD]

lemma keyMem_applyWindow (sz : Nat) (σ : Store) (w : List StateElement) (s : State) :
    keyMem (applyWindow sz σ w) s =
      (keyMem σ s || decide ((w.drop 1).take sz = s)) := by
  simp only [applyWindow]
  rw [keyMem_storeUpdate]
  exact congrArg (fun b => keyMem σ s || b) (decide_eq_decide.mpr ⟨Eq.symm, Eq.symm⟩)

lemma fold_count_alg (c m H₁ H₂ : Nat) :
    (c + H₁ * max m 1) + H₂ * max (max m (min H₁ 1)) 1 = c + (H₁ + H₂) * max m 1 := by
  rcases Nat.eq_zero_or_pos H₁ with h | h
  · subst h
    simp
  · have heq : max (max m (min H₁ 1)) 1 = max m 1 := by omega
    rw [heq]
    ring

lemma hitW_le_one (sz : Nat) (w : List StateElement) (s : State)
    (dir : SentenceDirection) (e : StateElement) : hitW sz w s dir e ≤ 1 := by
  unfold hitW
  split <;> omega

lemma countS_foldWindows (sz : Nat) (ws : List (List StateElement)) :
    ∀ (σ : Store) (s : State) (dir : SentenceDirection) (e : StateElement),
      countS (ws.foldl (applyWindow sz) σ) s dir e =
        countS σ s dir e + hitsWs sz ws s dir e * max (multS σ s dir e) 1 := by
  induction ws with
  | nil =>
    intro σ s dir e
    simp [hitsWs]
  | cons w t ih =>
    intro σ s dir e
    have hws : hitsWs sz (w :: t) s dir e = hitW sz w s dir e + hitsWs sz t s dir e := by
      simp [hitsWs]
    have hle := hitW_le_one sz w s dir e
    rw [List.foldl_cons, ih, countS_applyWindow, multS_applyWindow, hws]
    rcases Nat.eq_zero_or_pos (hitW sz w s dir e) with h | h
    · rw [h]
      simp
    · have h1 : hitW sz w s dir e = 1 := Nat.le_antisymm hle h
      rw [h1]
      have heq : multS σ s dir e ⊔ 1 ⊔ 1 = multS σ s dir e ⊔ 1 := by omega
      rw [heq]
      ring

lemma multS_foldWindows (sz : Nat) (ws : List (List StateElement)) :
    ∀ (σ : Store) (s : State) (dir : SentenceDirection) (e : StateElement),
      multS (ws.foldl (applyWindow sz) σ) s dir e =
        max (multS σ s dir e) (min (hitsWs sz ws s dir e) 1) := by
  induction ws with
  | nil =>
    intro σ s dir e
    simp [hitsWs]
  | cons w t ih =>
    intro σ s dir e
    have hws : hitsWs sz (w :: t) s dir e = hitW sz w s dir e + hitsWs sz t s dir e := by
      simp [hitsWs]
    have hle := hitW_le_one sz w s dir e
    rw [List.foldl_cons, ih, multS_applyWindow, hws]
    omega

lemma keyMem_foldWindows (sz : Nat) (ws : List (List StateElement)) :
    ∀ (σ : Store) (s : State),
      keyMem (ws.foldl (applyWindow sz) σ) s =
        (keyMem σ s || ws.any (fun w => decide ((w.drop 1).take sz = s))) := by
  induction ws with
  | nil =>
    intro σ s
    simp
  | cons w t ih =>
    intro σ s
    rw [List.foldl_cons, ih, keyMem_applyWindow, List.any_cons, ← Bool.or_assoc]

lemma countS_foldSizes (elements : List StateElement) :
    ∀ (ks : List Nat) (σ : Store) (s : State) (dir : SentenceDirection) (e : StateElement),
      countS (ks.foldl (fun st k =>
          if elements.length ≤ k + 1 then st
          else (windows (k + 1 + 2) elements).foldl (applyWindow (k + 1)) st) σ) s dir e =
        countS σ s dir e +
          ((ks.map (fun k => if elements.length ≤ k + 1 then 0
              else hitsWs (k + 1) (windows (k + 1 + 2) elements) s dir e)).sum) *
            max (multS σ s dir e) 1 := by
  intro ks
  induction ks with
  | nil =>
    intro σ s dir e
    simp
  | cons k t ih =>
    intro σ s dir e
    rw [List.foldl_cons, List.map_cons, List.sum_cons]
    by_cases hc : elements.length ≤ k + 1
    · rw [if_pos hc, if_pos hc, ih]
      simp
    · rw [if_neg hc, if_neg hc, ih, countS_foldWindows, multS_foldWindows]
      exact fold_count_alg _ _ _ _

lemma multS_foldSizes (elements : List StateElement) :
    ∀ (ks : List Nat) (σ : Store) (s : State) (dir : SentenceDirection) (e : StateElement),
      multS (ks.foldl (fun st k =>
          if elements.length ≤ k + 1 then st
          else (windows (k + 1 + 2) elements).foldl (applyWindow (k + 1)) st) σ) s dir e =
        max (multS σ s dir e)
          (min ((ks.map (fun k => if elements.length ≤ k + 1 then 0
              else hitsWs (k + 1) (windows (k + 1 + 2) elements) s dir e)).sum) 1) := by
  intro ks
  induction ks with
  | nil =>
    intro σ s dir e
    simp
  | cons k t ih =>
    intro σ s dir e
    rw [List.foldl_cons, List.map_cons, List.sum_cons]
    by_cases hc : elements.length ≤ k + 1
    · rw [if_pos hc, if_pos hc, ih]
      simp
    · rw [if_neg hc, if_neg hc, ih, multS_foldWindows]
      omega

lemma keyMem_foldSizes (elements : List StateElement) :
    ∀ (ks : List Nat) (σ : Store) (s : State),
      keyMem (ks.foldl (fun st k =>
          if elements.length ≤ k + 1 then st
          else (windows (k + 1 + 2) elements).foldl (applyWindow (k + 1)) st) σ) s =
        (keyMem σ s || ks.any (fun k =>
          if elements.length ≤ k + 1 then false
          else (windows (k + 1 + 2) elements).any (fun w => (w.drop 1).take (k + 1) = s))) := by
  intro ks
  induction ks with
  | nil =>
    intro σ s
    simp
  | cons k t ih =>
    intro σ s
    rw [List.foldl_cons, List.any_cons]
    by_cases hc : elements.length ≤ k + 1
    · rw [if_pos hc, if_pos hc, ih]
      simp
    · rw [if_neg hc, if_neg hc, ih, keyMem_foldWindows, ← Bool.or_assoc]

lemma countS_ingestElements (n : Nat) (σ : Store) (elements : List StateElement)
    (s : State) (dir : SentenceDirection) (e : StateElement) :
    countS (ingestElements n σ elements) s dir e =
      countS σ s dir e + hitsLine n elements s dir e * max (multS σ s dir e) 1 :=
  countS_foldSizes elements (List.range n) σ s dir e

lemma multS_ingestElements (n : Nat) (σ : Store) (elements : List StateElement)
    (s : State) (dir : SentenceDirection) (e : StateElement) :
    multS (ingestElements n σ elements) s dir e =
      max (multS σ s dir e) (min (hitsLine n elements s dir e) 1) :=
  multS_foldSizes elements (List.range n) σ s dir e

lemma keyMem_ingestElements (n : Nat) (σ : Store) (elements : List StateElement)
    (s : State) :
    keyMem (ingestElements n σ elements) s = (keyMem σ s || lineHasState n elements s) :=
  keyMem_foldSizes elements (List.range n) σ s

lemma mem_windows (n : Nat) :
    ∀ (l w : List StateElement), w ∈ windows n l →
      ∃ i, i + n ≤ l.length ∧ w = (l.drop i).take n := by
  intro l
  induction l with
  | nil =>
    intro w hw
    simp [windows] at hw
  | cons a rest ih =>
    intro w hw
    unfold windows at hw
    by_cases hlen : rest.length + 1 < n
    · rw [if_pos hlen] at hw
      simp at hw
    · rw [if_neg hlen] at hw
      rcases List.mem_cons.mp hw with h | h
      · refine ⟨0, ?_, ?_⟩
        · simp
          omega
        · simpa using h
      · obtain ⟨i, hi, hweq⟩ := ih w h
        refine ⟨i + 1, ?_, ?_⟩
        · simp
          omega
        · simpa using hweq

lemma middle_eq (l : List StateElement) (i sz : Nat) :
    (((l.drop i).take (sz + 2)).drop 1).take sz = (l.drop (i + 1)).take sz := by
  rw [List.drop_take, List.drop_drop, List.take_take]
  have h1 : sz + 2 - 1 = sz + 1 := by omega
  have h2 : min sz (sz + 1) = sz := by omega
  rw [h1, h2]

lemma middle_mem_interior (mid : List StateElement) (i sz : Nat)
    (hlen : i + (sz + 2) ≤ mid.length + 2) (x : StateElement)
    (hx : x ∈ ((StateElement.Marker SentenceMarker.Placeholder ::
        (mid ++ [StateElement.Marker SentenceMarker.Placeholder])).drop (i + 1)).take sz) :
    x ∈ mid := by
  have h1 : (StateElement.Marker SentenceMarker.Placeholder ::
      (mid ++ [StateElement.Marker SentenceMarker.Placeholder])).drop (i + 1) =
      (mid ++ [StateElement.Marker SentenceMarker.Placeholder]).drop i := rfl
  rw [h1] at hx
  have hi : i ≤ mid.length := by omega
  rw [List.drop_append_of_le_length hi] at hx
  have hsz : sz ≤ (mid.drop i).length := by
    rw [List.length_drop]
    omega
  rw [List.take_append_of_le_length hsz] at hx
  exact List.drop_subset i mid (List.take_subset sz _ hx)

lemma tokenize_decomp (line : String) :
    tokenize line = StateElement.Marker SentenceMarker.Placeholder ::
      (tokMid line ++ [StateElement.Marker SentenceMarker.Placeholder]) := by
  unfold tokenize tokMid
  simp

/-- Any middle of a processed window of a tokenized line sits inside the
line's interior (between the two placeholders). -/
lemma window_middle_sub (line : String) (sz : Nat) (w : List StateElement)
    (hw : w ∈ windows (sz + 2) (tokenize line)) :
    ∀ x ∈ (w.drop 1).take sz, x ∈ tokMid line := by
  intro x hx
  obtain ⟨i, hi, hweq⟩ := mem_windows (sz + 2) (tokenize line) w hw
  subst hweq
  rw [middle_eq] at hx
  rw [tokenize_decomp] at hx
  apply middle_mem_interior (tokMid line) i sz ?_ x hx
  have hlen : (tokenize line).length = (tokMid line).length + 2 := by
    rw [tokenize_decomp]
    simp
  omega

lemma tokMid_no_placeholder (line : String) (x : StateElement)
    (hx : x ∈ tokMid line) :
    x ≠ StateElement.Marker SentenceMarker.Placeholder := by
  unfold tokMid at hx
  rcases List.mem_cons.mp hx with h | h
  · subst h
    simp
  · rcases List.mem_append.mp h with h2 | h2
    · obtain ⟨cs, _, hcs⟩ := List.mem_filterMap.mp h2
      by_cases hne : String.mk cs ≠ ""
      · rw [if_pos hne] at hcs
        rw [← Option.some.inj hcs]
        simp
      · rw [if_neg hne] at hcs
        exact absurd hcs (by simp)
    · have : x = StateElement.Marker SentenceMarker.End := by simpa using h2
      subst this
      simp

lemma splitChars_chars : ∀ (L cs : List Char), cs ∈ splitChars L → ∀ c ∈ cs, c ∈ L := by
  intro L
  induction L with
  | nil =>
    intro cs hcs c hc
    simp [splitChars] at hcs
    subst hcs
    simp at hc
  | cons a rest ih =>
    intro cs hcs c hc
    simp only [splitChars] at hcs
    by_cases hsp : isSplitChar a
    · rw [if_pos hsp] at hcs
      rcases List.mem_cons.mp hcs with h | h
      · subst h
        simp at hc
      · exact List.mem_cons_of_mem a (ih cs h c hc)
    · rw [if_neg hsp] at hcs
      cases hr : splitChars rest with
      | nil =>
        rw [hr] at hcs
        have hcs2 : cs = [a] := by simpa using hcs
        subst hcs2
        have hca : c = a := by simpa using hc
        rw [hca]
        exact List.mem_cons_self _ _
      | cons p ps =>
        rw [hr] at hcs
        rcases List.mem_cons.mp hcs with h | h
        · subst h
          rcases List.mem_cons.mp hc with h2 | h2
          · subst h2
            exact List.mem_cons_self c rest
          · have hp : p ∈ splitChars rest := by
              rw [hr]
              exact List.mem_cons_self p ps
            exact List.mem_cons_of_mem a (ih p hp c h2)
        · have hcs3 : cs ∈ splitChars rest := by
            rw [hr]
            exact List.mem_cons_of_mem p h
          exact List.mem_cons_of_mem a (ih cs hcs3 c hc)

lemma char_ofNat_toNat (n : Nat) (h : n < 55296) : (Char.ofNat n).toNat = n := by
  have hv : n.isValidChar := Or.inl h
  simp [Char.ofNat, hv, Char.ofNatAux, Char.toNat, UInt32.toNat, BitVec.toNat_ofNatLt]

lemma toLower_not_upper (c : Char) :
    ¬ (65 ≤ (Char.toLower c).toNat ∧ (Char.toLower c).toNat ≤ 90) := by
  simp only [Char.toLower]
  by_cases h : c.toNat ≥ 65 ∧ c.toNat ≤ 90
  · rw [if_pos h]
    rw [char_ofNat_toNat (c.toNat + 32) (by omega)]
    omega
  · rw [if_neg h]
    exact h

lemma tokMid_words_lower (line : String) (w : String)
    (hw : StateElement.Word w ∈ tokMid line) : containsUpper w = false := by
  unfold tokMid at hw
  rcases List.mem_cons.mp hw with h | h
  · exact absurd h (by simp)
  · rcases List.mem_append.mp h with h2 | h2
    · obtain ⟨cs, hcsmem, hcs⟩ := List.mem_filterMap.mp h2
      by_cases hne : String.mk cs ≠ ""
      · rw [if_pos hne] at hcs
        have hwcs : w = String.mk cs := by
          have := Option.some.inj hcs
          cases this
          rfl
        subst hwcs
        unfold containsUpper
        rw [List.any_eq_false]
        intro c hc
        have hcmem : c ∈ line.data.map Char.toLower :=
          splitChars_chars (line.data.map Char.toLower) cs hcsmem c hc
        obtain ⟨c₀, _, hc₀⟩ := List.mem_map.mp hcmem
        subst hc₀
        have := toLower_not_upper c₀
        simp only [Bool.and_eq_true, decide_eq_true_eq]
        omega
      · rw [if_neg hne] at hcs
        exact absurd hcs (by simp)
    · simp at h2

lemma incList_keys (l : List (StateElement × Nat)) (e : StateElement)
    (Q : StateElement → Prop) (hl : ∀ q ∈ l, Q q.1) (he : Q e) :
    ∀ q ∈ incrementList l e, Q q.1 := by
  intro q hq
  unfold incrementList at hq
  by_cases ha : l.any (fun p => p.1 = e)
  · rw [if_pos ha] at hq
    obtain ⟨q', hq', hmap⟩ := List.mem_map.mp hq
    by_cases hh : q'.1 = e
    · rw [if_pos hh] at hmap
      rw [← hmap]
      exact hl q' hq'
    · rw [if_neg hh] at hmap
      rw [← hmap]
      exact hl q' hq'
  · rw [if_neg ha] at hq
    rcases List.mem_append.mp hq with h | h
    · exact hl q h
    · have hq2 : q = (e, 1) := by simpa using h
      rw [hq2]
      exact he

lemma transNoP_inc (t : Transistion) (dir : SentenceDirection) (e : StateElement)
    (h : TransNoP t) : TransNoP (t.increment_occurence dir e) := by
  obtain ⟨hp, hn⟩ := h
  unfold Transistion.increment_occurence TransNoP
  by_cases hP : e = StateElement.Marker SentenceMarker.Placeholder
  · rw [if_pos hP]
    exact ⟨hp, hn⟩
  · rw [if_neg hP]
    cases dir
    · dsimp only
      exact ⟨incList_keys t.prev e
        (fun x => x ≠ StateElement.Marker SentenceMarker.Placeholder) hp hP, hn⟩
    · dsimp only
      exact ⟨hp, incList_keys t.next e
        (fun x => x ≠ StateElement.Marker SentenceMarker.Placeholder) hn hP⟩

lemma storeNoP_storeUpdate (σ : Store) (s : State) (f : Transistion → Transistion)
    (h : StoreNoP σ) (hf : ∀ t, TransNoP t → TransNoP (f t)) :
    StoreNoP (storeUpdate σ s f) := by
  intro p hp
  unfold storeUpdate at hp
  by_cases ha : σ.any (fun q => q.1 = s)
  · rw [if_pos ha] at hp
    obtain ⟨p', hp', hmap⟩ := List.mem_map.mp hp
    by_cases hq : p'.1 = s
    · rw [if_pos hq] at hmap
      rw [← hmap]
      exact hf p'.2 (h p' hp')
    · rw [if_neg hq] at hmap
      rw [← hmap]
      exact h p' hp'
  · rw [if_neg ha] at hp
    rcases List.mem_append.mp hp with h2 | h2
    · exact h p h2
    · have hp2 : p = (s, f { prev := [], next := [] }) := by simpa using h2
      rw [hp2]
      refine hf _ ⟨?_, ?_⟩ <;> intro q hq <;> simp at hq

lemma storeNoP_applyWindow (sz : Nat) (σ : Store) (w : List StateElement)
    (h : StoreNoP σ) : StoreNoP (applyWindow sz σ w) :=
  storeNoP_storeUpdate σ _ _ h
    (fun t ht => transNoP_inc _ _ _ (transNoP_inc _ _ _ ht))

lemma foldl_preserve {α : Type} (Inv : Store → Prop) (g : Store → α → Store)
    (hg : ∀ σ a, Inv σ → Inv (g σ a)) :
    ∀ (l : List α) (σ : Store), Inv σ → Inv (l.foldl g σ) := by
  intro l
  induction l with
  | nil =>
    intro σ hσ
    exact hσ
  | cons a tl ih =>
    intro σ hσ
    exact ih _ (hg σ a hσ)

lemma storeNoP_ingest (n : Nat) (line : String) (σ : Store)
    (h : StoreNoP σ) : StoreNoP (ingest n σ line) := by
  unfold ingest ingestElements
  refine foldl_preserve StoreNoP _ ?_ (List.range n) σ h
  intro σ' k hσ'
  dsimp only
  by_cases hc : (tokenize line).length ≤ k + 1
  · rw [if_pos hc]
    exact hσ'
  · rw [if_neg hc]
    exact foldl_preserve StoreNoP _
      (fun σ'' a h'' => storeNoP_applyWindow _ _ _ h'') _ _ hσ'

lemma lineHasState_middle (n : Nat) (el : List StateElement) (s : State)
    (h : lineHasState n el s = true) :
    ∃ k, ∃ w ∈ windows (k + 1 + 2) el, (w.drop 1).take (k + 1) = s := by
  unfold lineHasState at h
  obtain ⟨k, _, hcond⟩ := List.any_eq_true.mp h
  by_cases hlen : el.length ≤ k + 1
  · rw [if_pos hlen] at hcond
    exact absurd hcond (by simp)
  · rw [if_neg hlen] at hcond
    obtain ⟨w, hw, heq⟩ := List.any_eq_true.mp hcond
    exact ⟨k, w, hw, by simpa using heq⟩

lemma reachable_key_elems (Q : StateElement → Prop)
    (hQ : ∀ (line : String) (x : StateElement), x ∈ tokMid line → Q x)
    (σ : Store) (h : Reachable σ) :
    ∀ p ∈ σ, ∀ x ∈ p.1, Q x := by
  induction h with
  | empty =>
    intro p hp
    simp at hp
  | step n line hR ih =>
    intro p hp x hx
    rename_i σ₀
    have hkey : keyMem (ingest n σ₀ line) p.1 = true := by
      unfold keyMem
      rw [List.any_eq_true]
      exact ⟨p, hp, by simp⟩
    rw [ingest, keyMem_ingestElements] at hkey
    rcases Bool.or_eq_true_iff.mp hkey with hold | hnew
    · obtain ⟨p', hp', hpk⟩ := List.any_eq_true.mp hold
      have hpk2 : p'.1 = p.1 := by simpa using hpk
      refine ih p' hp' x ?_
      rw [hpk2]
      exact hx
    · obtain ⟨k, w, hw, heq⟩ := lineHasState_middle n (tokenize line) p.1 hnew
      refine hQ line x (window_middle_sub line (k + 1) w hw x ?_)
      rw [heq]
      exact hx

lemma reachable_storeNoP (σ : Store) (h : Reachable σ) : StoreNoP σ := by
  induction h with
  | empty =>
    intro p hp
    simp at hp
  | step n line hR ih => exact storeNoP_ingest n line _ ih

/-! ### Claim theorems -/

/-- C7: for every raw input line the ingestion tokenizer lower-cases the
line, splits it on the `SPLIT_CHARS` boundaries, drops empty tokens, maps
the remaining tokens to `Word` elements, and produces exactly the sequence
`[Placeholder, Start, words…, End, Placeholder]`; the empty input yields
exactly `[Placeholder, Start, End, Placeholder]`.  Tokenization is a total
function, so it never fails. -/
theorem claim_tokenizer_shape :
    (∀ line : String, tokenize line = tokenizeSpec line) ∧
      tokenize "" =
        [StateElement.Marker SentenceMarker.Placeholder,
         StateElement.Marker SentenceMarker.Start,
         StateElement.Marker SentenceMarker.End,
         StateElement.Marker SentenceMarker.Placeholder] := by
  constructor
  · intro line
    unfold tokenize tokenizeSpec
    rw [filterMap_token_eq]
    simp
  · decide

/-- C5: on the empty store, generation returns `Ok(None)` for every input,
configuration, PRNG state, fuel, and both values of the bypass flag; the
input line is ingested exactly when training is enabled and the store is
left unchanged otherwise, and the PRNG is not consumed. -/
theorem claim_empty_store_generation (cfg : BrainConfig) (input : String)
    (bypass : Bool) (r : Rng) (fuel : Nat) :
    (_generate [] cfg input bypass r fuel).result = some none ∧
      (_generate [] cfg input bypass r fuel).store =
        (if cfg.training then ingest cfg.max_ingestion_state_size [] input else []) ∧
      (_generate [] cfg input bypass r fuel).rng = r := by
  refine ⟨?_, ?_, ?_⟩ <;> simp [_generate]

/-- C9: on the empty store the inner `_generate` returns `Ok(None)` even
with the bypass flag, so `generate_bypass_checks` unwraps `None` and
panics (modelled as `none`), while the non-bypass `generate` returns
`Ok(None)` normally. -/
theorem claim_bypass_empty_store_panic (cfg : BrainConfig) (input : String)
    (r : Rng) (fuel : Nat) :
    (_generate [] cfg input true r fuel).result = some none ∧
      (generate_bypass_checks [] cfg input r fuel).1 = none ∧
      (generate [] cfg input r fuel).result = some none := by
  refine ⟨?_, ?_, ?_⟩ <;> simp [_generate, generate, generate_bypass_checks]

/-- C1: ingesting the single line `"the cat sat"` into the empty store with
`max_ingestion_state_size = 2` creates the length-1 states `the`, `cat`,
`sat` and the length-2 states `the cat`, `cat sat`, each with the
`Start`/`End`-adjacent or word-adjacent transitions matching the line's
adjacency (in particular `cat` has `prev = [(the, 1)]`,
`next = [(sat, 1)]`); and with `min_generation_state_size = 1`,
`max_generation_state_size = 2` there is a PRNG state from which bypass
generation on input `"cat"` returns exactly `"the cat sat"`. -/
theorem claim_end_to_end_example :
    lookupT exampleStore [StateElement.Word "the"] =
        some { prev := [(StateElement.Marker SentenceMarker.Start, 1)],
               next := [(StateElement.Word "cat", 1)] } ∧
      lookupT exampleStore [StateElement.Word "cat"] =
        some { prev := [(StateElement.Word "the", 1)],
               next := [(StateElement.Word "sat", 1)] } ∧
      lookupT exampleStore [StateElement.Word "sat"] =
        some { prev := [(StateElement.Word "cat", 1)],
               next := [(StateElement.Marker SentenceMarker.End, 1)] } ∧
      lookupT exampleStore [StateElement.Word "the", StateElement.Word "cat"] =
        some { prev := [(StateElement.Marker SentenceMarker.Start, 1)],
               next := [(StateElement.Word "sat", 1)] } ∧
      lookupT exampleStore [StateElement.Word "cat", StateElement.Word "sat"] =
        some { prev := [(StateElement.Word "the", 1)],
               next := [(StateElement.Marker SentenceMarker.End, 1)] } ∧
      ∃ (r : Rng) (fuel : Nat),
        (_generate exampleStore exampleCfg "cat" true r fuel).result =
          some (some "the cat sat") :=
  ⟨by decide, by decide, by decide, by decide, by decide,
    rngZero, 10, by decide⟩

/-- C6: for every store, configuration, direction, sentence, and PRNG
state, `get_element` tries candidate context lengths in ascending order
over the half-open range `[min_generation_state_size,
max_generation_state_size)`, looks up the slice of
`min(L, sentence length)` elements taken from the sentence's front
(backward) or back (forward), uses the first length whose lookup succeeds
and samples that transition's `prev`/`next` list weighted by count, and
resolves to the `Start` (backward) or `End` (forward) marker when no
length matches. -/
theorem claim_get_element_order (σ : Store) (cfg : BrainConfig)
    (direction : SentenceDirection) (sentence : List StateElement) (r : Rng) :
    getElement σ cfg direction sentence r = getElementSpec σ cfg direction sentence r := by
  unfold getElement getElementSpec
  rw [getElementLoop_eq_find]
  cases h : cfg.get_state_range.find?
      (fun L => (lookupT σ (sliceFor direction sentence L)).isSome) with
  | none => rfl
  | some L =>
    have hp := List.find?_some h
    cases hl : lookupT σ (sliceFor direction sentence L) with
    | none => rw [hl] at hp; simp at hp
    | some t => simp [hl]

/-- C4 counterexample: the claim "on a non-empty store with bypass = true,
generation always returns some output, for every input and every PRNG
state" fails at the concrete non-empty store `[w ↦ (prev = [], next = [])]`:
after seeding at `w`, the backward step finds the state `[w]` and calls
`choose_weighted` on its empty `prev` list, whose `unwrap` panics
(modelled as the abnormal result `none`), so no output is returned. -/
theorem claim_gating_determinism_cex :
    emptyListsStore.length ≠ 0 ∧
      (_generate emptyListsStore exampleCfg "w" true rngZero 10).result = none := by
  constructor <;> decide

/-- C4 (amended): on a non-empty store, with `reply_rate = 0` and
`bypass = false` generation always returns `Ok(None)`; with `bypass = true`
generation never returns the normal no-output outcome `Ok(None)` — any run
either produces some output or aborts abnormally (an empty weighted-list
panic, a panic inside seeding, or a non-terminating boundary walk). -/
theorem claim_gating_determinism (σ : Store) (cfg : BrainConfig) (input : String)
    (r : Rng) (fuel : Nat) (hσ : σ.length ≠ 0)
    (hp0 : 0 ≤ cfg.reply_rate) (hp1 : cfg.reply_rate ≤ 1) :
    (cfg.reply_rate = 0 → (_generate σ cfg input false r fuel).result = some none) ∧
      (_generate σ cfg input true r fuel).result ≠ some none := by
  constructor
  · intro h0
    unfold _generate
    rw [if_neg hσ]
    by_cases hm : cfg.mute
    · simp [hm]
    · simp [hm, h0, genBool_zero]
  · unfold _generate
    rw [if_neg hσ]
    simp only [Bool.not_true, Bool.and_false, Bool.false_eq_true, if_false]
    exact seedExtend_result_ne_some_none σ cfg input _ fuel

/-- C4 witness: the amended theorem applied to the example store with
`reply_rate = 0`. -/
theorem claim_gating_determinism_witness :
    (_generate exampleStore zeroRateCfg "cat" false rngZero 10).result = some none ∧
      (_generate exampleStore zeroRateCfg "cat" true rngZero 10).result ≠ some none := by
  have h := claim_gating_determinism exampleStore zeroRateCfg "cat" rngZero 10
    (by decide) (by decide) (by decide)
  exact ⟨h.1 rfl, h.2⟩

/-- C8 counterexample: the claim "when bypass is requested no Bernoulli
reply-probability draw is made, so the PRNG state consumed by the
subsequent seeding and extension steps is the same as if the gating phase
did not exist" fails concretely: with `reply_rate = 0` (< 1) the call
`!self.rng.gen_bool(reply_rate) && !bypass_checks` still evaluates the
Bernoulli draw before consulting the bypass flag, so the bypass run reaches
the seeding pipeline with an advanced PRNG and finishes at a different
cursor than the gating-free pipeline run on the same initial PRNG. -/
theorem claim_bypass_gating_cex :
    exampleStore.length ≠ 0 ∧
      (_generate exampleStore zeroRateCfg "cat" true rngId 10).rng.pos ≠
        (seedExtend exampleStore zeroRateCfg "cat" rngId 10).rng.pos := by
  constructor <;> decide

/-- C8 (amended): when bypass is requested the gating phase cannot suppress
output — generation is exactly the seeding/extension pipeline — but the
Bernoulli draw is still executed first: the pipeline starts from
`(gen_bool reply_rate).rng`, which is the unchanged PRNG when
`reply_rate ≥ 1` (rand's always-true special case samples nothing) and the
PRNG advanced by one draw when `reply_rate < 1`. -/
theorem claim_bypass_gating (σ : Store) (cfg : BrainConfig) (input : String)
    (r : Rng) (fuel : Nat) (hσ : σ.length ≠ 0)
    (hp0 : 0 ≤ cfg.reply_rate) (hp1 : cfg.reply_rate ≤ 1) :
    _generate σ cfg input true r fuel =
        seedExtend σ cfg input (genBool cfg.reply_rate r).2 fuel ∧
      (1 ≤ cfg.reply_rate → (genBool cfg.reply_rate r).2 = r) ∧
      (cfg.reply_rate < 1 → (genBool cfg.reply_rate r).2 = r.advance 1) := by
  refine ⟨?_, ?_, ?_⟩
  · unfold _generate
    rw [if_neg hσ]
    simp only [Bool.not_true, Bool.and_false, Bool.false_eq_true, if_false]
  · intro h1
    rw [genBool, if_pos h1]
  · intro h1
    rw [genBool, if_neg (not_le.mpr h1)]
    rfl

/-- C8 witness: the amended theorem applied to the example store with the
default `reply_rate = 1`. -/
theorem claim_bypass_gating_witness :
    _generate exampleStore exampleCfg "cat" true rngZero 10 =
        seedExtend exampleStore exampleCfg "cat" (genBool exampleCfg.reply_rate rngZero).2 10 ∧
      (1 ≤ exampleCfg.reply_rate → (genBool exampleCfg.reply_rate rngZero).2 = rngZero) ∧
      (exampleCfg.reply_rate < 1 →
        (genBool exampleCfg.reply_rate rngZero).2 = rngZero.advance 1) :=
  claim_bypass_gating exampleStore exampleCfg "cat" rngZero 10
    (by decide) (by decide) (by decide)

/-- C3: for every line, every starting store, and every configured maximum
ingestion size, ingesting the line twice yields exactly the same state keys
as ingesting it once, and for every state, direction, and neighbor element
the occurrence count added by the first ingestion relative to the starting
store is exactly doubled after the second (stated additively:
`count₂ + count₀ = 2 · count₁`). -/
theorem claim_idempotent_counting (n : Nat) (σ : Store) (line : String) :
    (∀ s : State,
      keyMem (ingest n (ingest n σ line) line) s = keyMem (ingest n σ line) s) ∧
    (∀ (s : State) (dir : SentenceDirection) (e : StateElement),
      countS (ingest n (ingest n σ line) line) s dir e + countS σ s dir e =
        2 * countS (ingest n σ line) s dir e) := by
  constructor
  · intro s
    unfold ingest
    rw [keyMem_ingestElements, keyMem_ingestElements, Bool.or_assoc, Bool.or_self]
  · intro s dir e
    unfold ingest
    rw [countS_ingestElements, countS_ingestElements, multS_ingestElements]
    rcases Nat.eq_zero_or_pos (hitsLine n (tokenize line) s dir e) with h | h
    · rw [h]
      simp
      ring
    · have hmin : min (hitsLine n (tokenize line) s dir e) 1 = 1 := by omega
      rw [hmin]
      have heq : multS σ s dir e ⊔ 1 ⊔ 1 = multS σ s dir e ⊔ 1 := by omega
      rw [heq]
      ring

/-- C2: in every store reachable from the empty store by any sequence of
`ingest` calls (with any configuration), no state key contains a
`Placeholder` marker, and no `prev` or `next` neighbor list of any
transition contains a `Placeholder` element. -/
theorem claim_no_placeholder_leakage (σ : Store) (h : Reachable σ)
    (s : State) (t : Transistion) (hmem : (s, t) ∈ σ) :
    StateElement.Marker SentenceMarker.Placeholder ∉ s ∧
    (∀ q ∈ t.prev, q.1 ≠ StateElement.Marker SentenceMarker.Placeholder) ∧
    (∀ q ∈ t.next, q.1 ≠ StateElement.Marker SentenceMarker.Placeholder) := by
  have hkeys := reachable_key_elems
    (fun x => x ≠ StateElement.Marker SentenceMarker.Placeholder)
    (fun line x hx => tokMid_no_placeholder line x hx) σ h
  have hlists := reachable_storeNoP σ h
  refine ⟨?_, (hlists (s, t) hmem).1, (hlists (s, t) hmem).2⟩
  intro hP
  exact hkeys (s, t) hmem _ hP rfl

/-- C2 witness: the invariant applied to the state `[cat]` of the store
built by ingesting `"the cat sat"`. -/
theorem claim_no_placeholder_leakage_witness :
    StateElement.Marker SentenceMarker.Placeholder ∉
      ([StateElement.Word "cat"] : State) :=
  (claim_no_placeholder_leakage (ingest 2 [] "the cat sat")
    (Reachable.step 2 "the cat sat" Reachable.empty)
    [StateElement.Word "cat"]
    { prev := [(StateElement.Word "the", 1)], next := [(StateElement.Word "sat", 1)] }
    (by decide)).1

/-- C10: in every store reachable by ingestion every `Word` element of
every state key is lower-case (it contains no ASCII upper-case character,
since ingestion lower-cases the line before splitting), while the seeding
step of generation looks up input words verbatim; hence for every input
word containing an upper-case character the collection of states
containing that word is empty, and popping that word in the seeding loop
just skips to the remaining words without consuming the PRNG clone. -/
theorem claim_uppercase_seed_miss (σ : Store) (h : Reachable σ) (w : String)
    (hw : containsUpper w = true) :
    (∀ p ∈ σ, ∀ w', StateElement.Word w' ∈ p.1 → containsUpper w' = false) ∧
    stateWithElementVec σ (StateElement.Word w) = [] ∧
    (∀ (rc : Rng) (rest : List String),
      seedLoop σ rc (w :: rest) = seedLoop σ rc rest) := by
  have hinv : ∀ p ∈ σ, ∀ w', StateElement.Word w' ∈ p.1 → containsUpper w' = false := by
    intro p hp w' hw'
    exact reachable_key_elems
      (fun x => ∀ u, x = StateElement.Word u → containsUpper u = false)
      (fun line x hx u hxu => tokMid_words_lower line u (by rw [← hxu]; exact hx))
      σ h p hp _ hw' w' rfl
  have hvec : stateWithElementVec σ (StateElement.Word w) = [] := by
    unfold stateWithElementVec
    rw [List.filterMap_eq_nil]
    intro p hp
    rw [if_neg]
    intro hmem
    exact absurd hw (by simp [hinv p hp w hmem])
  refine ⟨hinv, hvec, ?_⟩
  intro rc rest
  simp [seedLoop, hvec, chooseL]

/-- C10 witness: ingesting `"The Cat"` lower-cases everything, so the
verbatim lookup of `"Cat"` matches no state. -/
theorem claim_uppercase_seed_miss_witness :
    stateWithElementVec (ingest 2 [] "The Cat") (StateElement.Word "Cat") = [] :=
  (claim_uppercase_seed_miss (ingest 2 [] "The Cat")
    (Reachable.step 2 "The Cat" Reachable.empty) "Cat" (by decide)).2.1

end Rustkov
